import Mathlib

/-!
Verification of the sixel terminal addon (image tiling and placeholder
protocol engine).

The development shallowly embeds the addon's `ImageStorage`, placement,
rescale, render-dispatch, protocol-handler and lifecycle code as executable
Lean definitions, and settles the frozen specification claims against them.
Machine numbers are modelled as `Nat` (all quantities involved are
non-negative integers in the source); canvas objects are modelled as surfaces
carrying an identity tag so that object sharing can be stated; the host
terminal buffer is modelled by its cursor, scroll counter and grid
parameters, which is the part of the host state the placement routine reads
and writes.
-/

deriving instance DecidableEq for Except

namespace SixelSpec

/-- Sentinel code point written into placeholder cells
(`const CODE = 0x110000`). -/
def CODE : Nat := 0x110000

/-- Foreign-content attribute flag (`const INVISIBLE = 0x40000000`). -/
def INVISIBLE : Nat := 0x40000000

/-- `Math.ceil(a / b)` on natural numbers, as used for tile and resample
dimension computations. -/
def ceilDiv (a b : Nat) : Nat := (a + b - 1) / b

/-- Character-cell pixel metrics (`interface CellSize`). -/
structure CellSize where
  width : Nat
  height : Nat
  deriving DecidableEq

/-- A canvas pixel surface (`HTMLCanvasElement`): pixel dimensions plus an
identity tag `sid` distinguishing distinct canvas objects, so that
"the very same object" is expressible. -/
structure Surface where
  sid : Nat
  width : Nat
  height : Nat
  deriving DecidableEq

/-- Stored image record (`interface IImageSpec`).  `urlCache` keeps the keys
of the per-tile data-url cache; clearing the cache is `[]`. -/
structure IImageSpec where
  orig : Surface
  origCellSize : CellSize
  actual : Surface
  actualCellSize : CellSize
  urlCache : List Nat
  deriving DecidableEq

/-- The image repository (`class ImageStorage`): the `_images` array plus a
counter supplying identity tags for freshly created canvas objects. -/
structure ImageStorage where
  images : List IImageSpec
  nextSid : Nat
  deriving DecidableEq

/-- Host-terminal grid parameters read by the placement engine:
`internalTerm.cols` (grid width) and `buffer.scrollBottom`. -/
structure TermParams where
  cols : Nat
  scrollBottom : Nat
  deriving DecidableEq

/-- The host buffer state touched by placement: cursor column `x`, cursor row
`y`, and a counter of `internalTerm.scroll(false)` invocations. -/
structure BufferState where
  x : Nat
  y : Nat
  scrolls : Nat
  deriving DecidableEq

/-- One placeholder-marker write
(`bufferRow.setCellFromCodePoint(offset + col, CODE, 1, fg, tileNum)`),
together with the image-relative row `rowIdx` the write belongs to. -/
structure Marker where
  rowIdx : Nat
  col : Nat
  code : Nat
  cellWidth : Nat
  fg : Nat
  bg : Nat
  deriving DecidableEq

/-- Foreground attribute of a placeholder marker
(`const fg = INVISIBLE | imgIdx`). -/
def encodeMarkerFg (imgIdx : Nat) : Nat := INVISIBLE ||| imgIdx

/-- Image id decoded from a marker's foreground attribute at render time
(`fg & 0xFFFFFF`). -/
def decodeMarkerId (fg : Nat) : Nat := fg &&& 0xFFFFFF

/-- Tile index decoded from a marker's background attribute at render time
(`bufferRow.getBg(col) & 0xFFFFFF`). -/
def decodeMarkerTile (bg : Nat) : Nat := bg &&& 0xFFFFFF

/-- The row-advance idiom of `addImage`:
`buffer.y++; if (buffer.y > buffer.scrollBottom) { buffer.y--; internalTerm.scroll(false); }` -/
def advanceLine (scrollBottom : Nat) (st : BufferState) : BufferState :=
  if scrollBottom < st.y + 1 then { st with scrolls := st.scrolls + 1 }
  else { st with y := st.y + 1 }

/-- `advanceLine` iterated `n` times. -/
def advanceIter (scrollBottom : Nat) : Nat → BufferState → BufferState
  | 0, st => st
  | n + 1, st => advanceIter scrollBottom n (advanceLine scrollBottom st)

/-- The inner column loop of `addImage` for one image row: writes a marker at
each column until `offset + col >= internalTerm.cols` breaks the loop. -/
def rowMarkers (termCols offset cols fg rowIdx : Nat) : List Marker :=
  ((List.range cols).takeWhile (fun col => decide (offset + col < termCols))).map
    (fun col =>
      { rowIdx := rowIdx, col := offset + col, code := CODE, cellWidth := 1,
        fg := fg, bg := rowIdx * cols + col })

/-- The outer row loop of `addImage`: writes one row of markers per image
row, advancing the buffer line between rows but not after the last one
(`if (row < rows - 1) { buffer.y++; ... }`).  The first argument counts the
remaining rows. -/
def placeRows (tp : TermParams) (offset cols fg : Nat) :
    Nat → Nat → BufferState → List Marker × BufferState
  | 0, _, st => ([], st)
  | 1, rowIdx, st => (rowMarkers tp.cols offset cols fg rowIdx, st)
  | n + 2, rowIdx, st =>
      let ms := rowMarkers tp.cols offset cols fg rowIdx
      let st1 := advanceLine tp.scrollBottom st
      let rest := placeRows tp offset cols fg (n + 1) (rowIdx + 1) st1
      (ms ++ rest.1, rest.2)

/-- The repository-append part of `addImage`: push a new `IImageSpec` with
`orig = actual = img` and `origCellSize = actualCellSize` = the current cell
metrics, and return the new position. -/
def addImageStore (img : Surface) (cs : CellSize) (store : ImageStorage) :
    Nat × ImageStorage :=
  (store.images.length,
    { store with
        images := store.images ++
          [{ orig := img, origCellSize := cs, actual := img,
             actualCellSize := cs, urlCache := [] }] })

/-- `ImageStorage.addImage`: computes the tile grid from the current cell
metrics, appends the image to the repository, writes the placeholder markers
into the buffer rows (truncating at the grid width), and advances the cursor
past the image exactly as the source does.  Returns the new image position,
the updated repository, the final buffer state and the list of marker writes
in write order. -/
def addImage (tp : TermParams) (cs : CellSize) (img : Surface)
    (store : ImageStorage) (st : BufferState) :
    Nat × ImageStorage × BufferState × List Marker :=
  let cols := ceilDiv img.width cs.width
  let rows := ceilDiv img.height cs.height
  let pushed := addImageStore img cs store
  let position := pushed.1
  let store1 := pushed.2
  let imgIdx := store1.images.length - 1
  let fg := encodeMarkerFg imgIdx
  let offset := st.x
  let placed := placeRows tp offset cols fg rows 0 st
  let stFinal :=
    if tp.cols ≤ offset + cols then
      let st2 := advanceLine tp.scrollBottom placed.2
      { st2 with x := 0 }
    else
      { placed.2 with x := offset + cols }
  (position, store1, stFinal, placed.1)

/-- Modelled from the spec: writing one printable narrow character — the
cursor column advances, and when it passes the grid's right edge the cursor
wraps to column 0 and the row advances through the host's
advance-line-with-scroll routine ("wrap to column 0 and advance a row,
scrolling if needed, if the image reaches the grid's right edge"). -/
def writeChar (termCols scrollBottom : Nat) (st : BufferState) : BufferState :=
  if termCols ≤ st.x + 1 then
    { advanceLine scrollBottom { st with x := st.x + 1 } with x := 0 }
  else
    { st with x := st.x + 1 }

/-- Modelled from the spec: writing a run of `n` printable narrow characters,
accounting for wraps. -/
def writeTextRun (termCols scrollBottom : Nat) : Nat → BufferState → BufferState
  | 0, st => st
  | n + 1, st => writeTextRun termCols scrollBottom n (writeChar termCols scrollBottom st)

/-- Modelled from the spec: the reference cursor discipline of "writing `c`
printable narrow characters per row for `r` rows row-by-row from
`(col0, row0)`".  Each row's characters start at column `col0`; the move to
the next row is the wrap itself when the row's characters reached the right
edge (the cursor is then already at column 0 on the next line), and the
host's advance-line-with-scroll routine otherwise. -/
def writeTextBlock (termCols scrollBottom col0 c : Nat) :
    Nat → BufferState → BufferState
  | 0, st => st
  | 1, st => writeTextRun termCols scrollBottom c { st with x := col0 }
  | r + 2, st =>
      let st1 := writeTextRun termCols scrollBottom c { st with x := col0 }
      let st2 := if st1.x = 0 then st1 else advanceLine scrollBottom st1
      writeTextBlock termCols scrollBottom col0 c (r + 1) st2

/-- `ImageStorage._rescale` acting on a single stored image given the current
cell metrics `cs` and the fresh identity tag for a newly created canvas.
Returns the updated record, the next fresh tag, and whether the call did any
work (reset or resample) as opposed to the equality-check no-op. -/
def rescaleSpec (cs : CellSize) (freshSid : Nat) (sp : IImageSpec) :
    IImageSpec × Nat × Bool :=
  if cs = sp.actualCellSize then
    (sp, freshSid, false)
  else if cs = sp.origCellSize then
    ({ sp with actual := sp.orig, actualCellSize := sp.origCellSize,
               urlCache := [] }, freshSid, true)
  else
    ({ sp with
        actual :=
          { sid := freshSid,
            width := ceilDiv (sp.orig.width * cs.width) sp.origCellSize.width,
            height := ceilDiv (sp.orig.height * cs.height) sp.origCellSize.height },
        actualCellSize := cs,
        urlCache := [] }, freshSid + 1, true)

/-- `ImageStorage._rescale(imgId)` on the repository.  Accessing
`this._images[imgId]` for an `imgId` outside the array yields `undefined` in
the source, and the immediately following property access throws; this is
the `Except.error` case. -/
def rescaleImageStorage (cs : CellSize) (imgId : Nat) (s : ImageStorage) :
    Except String (ImageStorage × Bool) :=
  match s.images.get? imgId with
  | none => .error "TypeError"
  | some sp =>
      let r := rescaleSpec cs s.nextSid sp
      .ok ({ images := s.images.set imgId r.1, nextSid := r.2.1 }, r.2.2)

/-- The dirty-marking done by the asynchronous decode completion in
`addImageFromBase64`:
`this._images[pos].actualCellSize = {width: 0, height: 0}`. -/
def markDirty (imgId : Nat) (s : ImageStorage) : ImageStorage :=
  match s.images.get? imgId with
  | none => s
  | some sp => { s with images := s.images.set imgId { sp with actualCellSize := ⟨0, 0⟩ } }

/-- One terminal-buffer cell as read by the Render Dispatcher: code point,
foreground attribute, background attribute. -/
structure Cell where
  code : Nat
  fg : Nat
  bg : Nat
  deriving DecidableEq

/-- One `ctx.drawImage` tile paint issued by `_drawToCanvas`: the image
painted from, the source sub-rectangle on its `actual` surface, and the
destination cell rectangle. -/
structure Blit where
  imgId : Nat
  srcX : Nat
  srcY : Nat
  srcW : Nat
  srcH : Nat
  dstX : Nat
  dstY : Nat
  deriving DecidableEq

/-- `ImageStorage._drawToCanvas(imgId, tileId, col, row)`: rescales the image
(throwing on an unknown id), then blits the tile's source rectangle
`((tileId % cols) * cellWidth, floor(tileId / cols) * cellHeight)` onto the
cell's rectangle.  Returns the paint together with the (possibly rescaled)
repository. -/
def drawToCanvas (cs : CellSize) (imgId tileId col row : Nat)
    (s : ImageStorage) : Except String (Blit × ImageStorage) :=
  match rescaleImageStorage cs imgId s with
  | .error e => .error e
  | .ok r =>
      match r.1.images.get? imgId with
      | none => .error "TypeError"
      | some sp =>
          .ok ({ imgId := imgId,
                 srcX := (tileId % ceilDiv sp.actual.width cs.width) * cs.width,
                 srcY := (tileId / ceilDiv sp.actual.width cs.width) * cs.height,
                 srcW := cs.width, srcH := cs.height,
                 dstX := col * cs.width, dstY := row * cs.height }, r.1)

/-- The per-cell body of `ImageStorage.render`'s scan (canvas backend): a
cell is dispatched when it holds the sentinel code point and its foreground
attribute carries the INVISIBLE flag; the `(id, tileIndex)` pair is decoded
from the color fields. -/
def processCell (cs : CellSize) (rowIdx colIdx : Nat) (cell : Cell)
    (acc : List Blit × ImageStorage) : Except String (List Blit × ImageStorage) :=
  if cell.code = CODE then
    if cell.fg &&& INVISIBLE ≠ 0 then
      match drawToCanvas cs (decodeMarkerId cell.fg) (decodeMarkerTile cell.bg)
          colIdx rowIdx acc.2 with
      | .ok r => .ok (acc.1 ++ [r.1], r.2)
      | .error e => .error e
    else .ok acc
  else .ok acc

/-- The column scan of `ImageStorage.render` over the cells of one buffer
row, starting at column index `colIdx`. -/
def processCells (cs : CellSize) (rowIdx : Nat) :
    Nat → List Cell → (List Blit × ImageStorage) →
      Except String (List Blit × ImageStorage)
  | _, [], acc => .ok acc
  | colIdx, cell :: rest, acc =>
      match processCell cs rowIdx colIdx cell acc with
      | .ok acc1 => processCells cs rowIdx (colIdx + 1) rest acc1
      | .error e => .error e

/-- One iteration of `render`'s row walk
(`for (let col = 0; col < internalTerm.cols; ++col)`). -/
def processRow (cs : CellSize) (termCols rowIdx : Nat) (cells : List Cell)
    (acc : List Blit × ImageStorage) : Except String (List Blit × ImageStorage) :=
  processCells cs rowIdx 0 (cells.take termCols) acc

/-- The row walk of `ImageStorage.render`, starting at viewport row
`rowIdx`. -/
def renderRows (cs : CellSize) (termCols : Nat) :
    Nat → List (List Cell) → (List Blit × ImageStorage) →
      Except String (List Blit × ImageStorage)
  | _, [], acc => .ok acc
  | rowIdx, row :: rest, acc =>
      match processRow cs termCols rowIdx row acc with
      | .ok acc1 => renderRows cs termCols (rowIdx + 1) rest acc1
      | .error e => .error e

/-- `ImageStorage.render` over a viewport row range (canvas backend): walks
every cell of the given rows and paints a tile for each placeholder marker.
The rows are given as the viewport slice, indexed from the range start. -/
def renderCells (cs : CellSize) (termCols : Nat) (grid : List (List Cell))
    (s : ImageStorage) : Except String (List Blit × ImageStorage) :=
  renderRows cs termCols 0 grid ([], s)

/-- Whether a cell is dispatched as a placeholder marker by `render`. -/
def cellIsMarker (cell : Cell) : Bool :=
  cell.code == CODE && (cell.fg &&& INVISIBLE) != 0

/-- Whether every marker in the scanned viewport decodes to an image id that
is present in a repository of `len` images. -/
def gridMarkersValid (termCols : Nat) (grid : List (List Cell)) (len : Nat) : Bool :=
  grid.all fun row =>
    (row.take termCols).all fun cell =>
      !cellIsMarker cell || decodeMarkerId cell.fg < len

/-- The number of placeholder markers in the scanned viewport. -/
def countMarkers (termCols : Nat) (grid : List (List Cell)) : Nat :=
  (grid.map fun row => ((row.take termCols).filter cellIsMarker).length).sum

/-- Modelled from the spec: the sixel library's `toRGBA8888(r, g, b, a)`
packed-pixel constructor (byte-packed RGBA; only injectivity and
non-zeroness of opaque colors matter to the claims). -/
def toRGBA8888 (r g b a : Nat) : Nat :=
  (r % 256) ||| ((g % 256) <<< 8) ||| ((b % 256) <<< 16) ||| ((a % 256) <<< 24)

/-- Modelled from the spec: the sixel library's default background fill, the
value carried by a freshly constructed `SixelImage` — opaque black, and in
particular non-zero ("be filled with the current terminal background color
(any other value, default included)" describes the default as filling). -/
def DEFAULT_FILL : Nat := toRGBA8888 0 0 0 255

/-- Modelled from the spec: the state of the streaming raster decoder that
the addon's code reads — the background fill colour selected at `begin`
(`fillColor`, where `0` means "keep background pixels transparent"), the
pixel extent, and the pixels explicitly coloured by the stream as
`(x, y, packed color)` triples. -/
structure SixelImage where
  fillColor : Nat
  width : Nat
  height : Nat
  pixels : List (Nat × Nat × Nat)
  deriving DecidableEq

/-- A fresh `new SixelImage()` before any data is fed. -/
def newSixelImage : SixelImage :=
  { fillColor := DEFAULT_FILL, width := 0, height := 0, pixels := [] }

/-- `SIXEL.hook(collect, params, flag)`: the addon only inspects the second
protocol parameter; `if (params[1] && params[1] === 1) this._image.fillColor = 0`. -/
def sixelHook (params : List Nat) (img : SixelImage) : SixelImage :=
  match params.get? 1 with
  | some p => if p ≠ 0 ∧ p = 1 then { img with fillColor := 0 } else img
  | none => img

/-- Modelled from the spec: reading one pixel of the surface produced by the
sixel library's `toImageData` — a pixel explicitly coloured by the stream
keeps its colour, any other pixel gets the supplied fill, or transparent
(packed value 0) when no fill is supplied. -/
def sixelPixelAt (img : SixelImage) (fill : Option Nat) (x y : Nat) : Nat :=
  match img.pixels.find? (fun p => p.1 == x && p.2.1 == y) with
  | some p => p.2.2
  | none =>
      match fill with
      | some f => f
      | none => 0

/-- `ImageStorage.addImageFromSixel`, restricted to the pixel contents of the
canvas it builds: `applyBG = !!sixel.fillColor`; when true the image data is
produced with the fill `toRGBA8888(0, 0, 0, 255)` (the source's hard-coded
"black for now"), otherwise with no fill.  Note the routine never reads the
terminal's background colour. -/
def addImageFromSixelPixel (sixel : SixelImage) (x y : Nat) : Nat :=
  if sixel.fillColor ≠ 0 then
    sixelPixelAt sixel (some (toRGBA8888 0 0 0 255)) x y
  else
    sixelPixelAt sixel none x y

/-- The full raster path for one pixel: a decoder hooked with `params`,
having decoded extent `w × h` and explicit pixels `ps`, propagated to the
repository canvas through `addImageFromSixel`. -/
def sixelPipeline (params : List Nat) (w h : Nat) (ps : List (Nat × Nat × Nat))
    (x y : Nat) : Nat :=
  addImageFromSixelPixel
    (let hooked := sixelHook params newSixelImage
     { hooked with width := w, height := h, pixels := ps }) x y

/-- Modelled from the spec: JS `parseInt` on a header value ("numeric fields
parsed as integers"): optional sign followed by a longest decimal-digit
run; `none` models `NaN`. -/
def parseIntJS (s : List Char) : Option Int :=
  let core : List Char → Option Int := fun t =>
    let digits := t.takeWhile (fun c => c.isDigit)
    if digits = [] then none
    else some (digits.foldl (fun n c => n * 10 + (c.toNat - 48)) (0 : Int))
  match s with
  | '-' :: rest => (core rest).map (fun n => -n)
  | '+' :: rest => core rest
  | _ => core s

/-- The `inline` entry produced by the OSC 1337 header reduce: fields are
split on `;`, each field on `=` (the value being the part after the first
`=`, absent when there is none); later assignments overwrite earlier ones;
the accumulator starts with the default `inline: 0`.  `FIELD_PARSER.inline`
is `parseInt`; applying it to an absent value is `parseInt(undefined)`,
i.e. `NaN` (`none`).  The other header fields never influence control
flow.  The value is `none` for `NaN`, `some n` otherwise. -/
def headerInline (header : List Char) : Option Int :=
  (header.splitOn ';').foldl
    (fun acc field =>
      let parts := field.splitOn '='
      if parts.headD [] = "inline".toList then
        match parts.get? 1 with
        | some v => parseIntJS v
        | none => none
      else acc)
    (some 0)

/-- JS truthiness of the parsed `inline` entry (`NaN` and `0` are falsy). -/
def inlineTruthy : Option Int → Bool
  | none => false
  | some n => n != 0

/-- The image formats distinguished by the payload sniffer
(`imagesize`'s `ImageType`). -/
inductive ImageType where
  | invalid
  | gif
  | jpeg
  | png
  deriving DecidableEq

/-- The sniffer result (`ISize`): format plus pixel dimensions, `-1` when a
dimension cannot be determined. -/
structure SizeResult where
  type : ImageType
  width : Int
  height : Int
  deriving DecidableEq

/-- The synchronous part of `ImageStorage.addImageFromBase64`: create a blank
canvas of the sniffed pixel size and run `addImage` on it (the decoded pixels
arrive later through the asynchronous `onload` callback, which is
`markDirty` plus a repaint request). -/
def addImageFromBase64Sync (tp : TermParams) (cs : CellSize)
    (size : SizeResult) (store : ImageStorage) (st : BufferState) :
    ImageStorage × BufferState :=
  let canvas : Surface :=
    { sid := store.nextSid, width := size.width.toNat, height := size.height.toNat }
  let store0 := { store with nextSid := store.nextSid + 1 }
  let r := addImage tp cs canvas store0 st
  (r.2.1, r.2.2.1)

/-- The header start offset of the OSC 1337 handler
(`(data.startsWith('File=')) ? 5 : 0`). -/
def oscStart (data : List Char) : Nat :=
  if "File=".toList.isPrefixOf data then 5 else 0

/-- The OSC 1337 handler installed by `SixelAddon.activate`.  `sniff` stands
for the external `ImageSize.guessFormat` capability applied to the payload
bytes (`data.charCodeAt(i)` written into a `Uint8Array`, from just after the
divider).  Returns the handler's boolean "consumed" result together with the
repository and buffer after the call. -/
def oscImageHandler (sniff : List Nat → SizeResult) (tp : TermParams)
    (cs : CellSize) (data : List Char) (store : ImageStorage)
    (st : BufferState) : Bool × ImageStorage × BufferState :=
  let start := oscStart data
  match data.findIdx? (fun c => c == ':') with
  | none => (false, store, st)
  | some divider =>
      let header := (data.take divider).drop start
      if inlineTruthy (headerInline header) = false then (false, store, st)
      else
        let payload := (data.map (fun c => c.toNat % 256)).drop (divider + 1)
        let size := sniff payload
        if size.type = ImageType.invalid ∨ size.width = -1 ∨ size.height = -1 then
          (false, store, st)
        else
          let r := addImageFromBase64Sync tp cs size store st
          (true, r.1, r.2)

/-- The host-terminal registration points touched by `SixelAddon.activate`:
the DCS handler slot for final byte `q` (`_parser.setDcsHandler` replaces the
slot and hands back nothing), the OSC 1337 handler list (`addOscHandler`
returns a disposable), and the `onRender` listener list (the returned
disposable is dropped by `activate`).  `nextHandle` supplies registration
identities. -/
structure Host where
  dcsQ : Option Nat
  osc1337 : List Nat
  renderSubs : List Nat
  nextHandle : Nat
  deriving DecidableEq

/-- `SixelAddon` instance state: the `_imageHandler` disposable field. -/
structure AddonState where
  imageHandler : Option Nat
  deriving DecidableEq

/-- A freshly constructed `SixelAddon` (`_imageHandler = null`). -/
def initialAddon : AddonState := { imageHandler := none }

/-- `SixelAddon.activate(terminal)`: installs the SIXEL DCS handler, the
OSC 1337 image handler (keeping its disposable in `_imageHandler`), and the
`onRender` subscription (whose disposable is discarded). -/
def activate (a : AddonState) (h : Host) : AddonState × Host :=
  let h1 := { h with dcsQ := some h.nextHandle, nextHandle := h.nextHandle + 1 }
  let oscId := h1.nextHandle
  let h2 := { h1 with osc1337 := h1.osc1337 ++ [oscId], nextHandle := h1.nextHandle + 1 }
  let h3 := { h2 with renderSubs := h2.renderSubs ++ [h2.nextHandle],
                      nextHandle := h2.nextHandle + 1 }
  ({ a with imageHandler := some oscId }, h3)

/-- `SixelAddon.dispose()`: disposes `_imageHandler` when set and nulls the
field; nothing else is unregistered. -/
def dispose (a : AddonState) (h : Host) : AddonState × Host :=
  match a.imageHandler with
  | some hid => ({ a with imageHandler := none }, { h with osc1337 := h.osc1337.erase hid })
  | none => (a, h)

/-! ### Helper lemmas -/

/-- After any `_rescale` call the stored `actualCellSize` equals the cell
metrics the call was made with. -/
theorem rescaleSpec_actualCellSize (cs : CellSize) (n : Nat) (sp : IImageSpec) :
    (rescaleSpec cs n sp).1.actualCellSize = cs := by
  unfold rescaleSpec
  by_cases h1 : cs = sp.actualCellSize
  · rw [if_pos h1]; exact h1.symm
  · rw [if_neg h1]
    by_cases h2 : cs = sp.origCellSize
    · rw [if_pos h2]; exact h2.symm
    · rw [if_neg h2]

/-- `_rescale` on a record already at the current metrics is the no-op
branch. -/
theorem rescaleSpec_noop (cs : CellSize) (n : Nat) (sp : IImageSpec)
    (h : sp.actualCellSize = cs) : rescaleSpec cs n sp = (sp, n, false) := by
  unfold rescaleSpec
  rw [if_pos h.symm]

/-- The `break` of the inner placement loop: the columns surviving the
`offset + col >= internalTerm.cols` guard are exactly the first
`min cols (termCols - offset)` ones. -/
theorem takeWhile_offset_range (offset W : Nat) :
    ∀ n, (List.range n).takeWhile (fun col => decide (offset + col < W))
      = List.range (min n (W - offset)) := by
  intro n
  induction n with
  | zero => simp
  | succ n ih =>
      rw [List.range_succ, List.takeWhile_append, ih]
      by_cases hle : (List.range (min n (W - offset))).length = (List.range n).length
      · rw [if_pos hle]
        simp only [List.length_range] at hle
        by_cases hn : offset + n < W
        · have htw : List.takeWhile (fun col => decide (offset + col < W)) [n] = [n] := by
            simp [List.takeWhile_cons, hn]
          rw [htw, ← List.range_succ]
          congr 1
          omega
        · have htw : List.takeWhile (fun col => decide (offset + col < W)) [n] = [] := by
            simp [List.takeWhile_cons, hn]
          rw [htw, List.append_nil]
          congr 1
          omega
      · rw [if_neg hle]
        simp only [List.length_range] at hle
        congr 1
        omega

/-- Closed form of one placement row: a marker for each surviving column. -/
theorem rowMarkers_eq (termCols offset cols fg rowIdx : Nat) :
    rowMarkers termCols offset cols fg rowIdx
      = (List.range (min cols (termCols - offset))).map (fun col =>
          { rowIdx := rowIdx, col := offset + col, code := CODE, cellWidth := 1,
            fg := fg, bg := rowIdx * cols + col }) := by
  unfold rowMarkers
  rw [takeWhile_offset_range]

/-- Closed form of the markers written by the whole row loop. -/
theorem placeRows_fst (tp : TermParams) (offset cols fg : Nat) :
    ∀ (r rowIdx : Nat) (st : BufferState),
      (placeRows tp offset cols fg r rowIdx st).1
        = (List.range r).flatMap (fun j => rowMarkers tp.cols offset cols fg (rowIdx + j))
  | 0, rowIdx, st => by simp [placeRows]
  | 1, rowIdx, st => by
      rw [show List.range 1 = [0] from by simp [List.range_succ]]
      simp [placeRows]
  | n + 2, rowIdx, st => by
      show rowMarkers tp.cols offset cols fg rowIdx
          ++ (placeRows tp offset cols fg (n + 1) (rowIdx + 1)
                (advanceLine tp.scrollBottom st)).1 = _
      rw [placeRows_fst tp offset cols fg (n + 1) (rowIdx + 1)
        (advanceLine tp.scrollBottom st)]
      conv_rhs => rw [List.range_succ_eq_map]
      rw [List.flatMap_cons, List.flatMap_map]
      congr 1
      apply congrArg
      funext j
      congr 1
      omega

/-- Closed form of the marker writes performed by `addImage`: one marker per
image row and per surviving column, with row-major tile indices. -/
theorem addImage_markers (tp : TermParams) (cs : CellSize) (img : Surface)
    (store : ImageStorage) (st : BufferState) :
    (addImage tp cs img store st).2.2.2
      = (List.range (ceilDiv img.height cs.height)).flatMap (fun rowIdx =>
          (List.range (min (ceilDiv img.width cs.width) (tp.cols - st.x))).map
            (fun col =>
              { rowIdx := rowIdx, col := st.x + col, code := CODE, cellWidth := 1,
                fg := encodeMarkerFg store.images.length,
                bg := rowIdx * ceilDiv img.width cs.width + col })) := by
  simp only [addImage, addImageStore]
  rw [placeRows_fst]
  simp only [List.length_append, List.length_cons, List.length_nil,
    Nat.add_sub_cancel, Nat.zero_add]
  apply congrArg
  funext j
  rw [rowMarkers_eq]

/-- Row-major flattening: concatenating `r` rows of `c` consecutive indices
covers `0 .. r*c - 1` in order. -/
theorem range_mul_flatMap :
    ∀ r c : Nat, (List.range r).flatMap
        (fun j => (List.range c).map (fun col => j * c + col))
      = List.range (r * c) := by
  intro r c
  induction r with
  | zero => simp
  | succ r ih =>
      rw [List.range_succ, List.flatMap_append, ih, List.flatMap_cons,
        List.flatMap_nil, List.append_nil, Nat.succ_mul, List.range_add]

/-- The advance-line routine never touches the cursor column. -/
theorem advanceLine_withX (SB : Nat) (st : BufferState) (a : Nat) :
    advanceLine SB { st with x := a } = { advanceLine SB st with x := a } := by
  cases st with
  | mk x y s =>
      unfold advanceLine
      by_cases h : SB < y + 1
      · simp [h]
      · simp [h]

/-- Iterated advance-line never touches the cursor column. -/
theorem advanceIter_withX (SB : Nat) :
    ∀ (n : Nat) (st : BufferState) (a : Nat),
      advanceIter SB n { st with x := a } = { advanceIter SB n st with x := a }
  | 0, st, a => rfl
  | n + 1, st, a => by
      show advanceIter SB n (advanceLine SB { st with x := a }) = _
      rw [advanceLine_withX, advanceIter_withX SB n (advanceLine SB st) a]
      rfl

/-- Peeling the last advance off an iteration. -/
theorem advanceIter_succ_last (SB : Nat) :
    ∀ (n : Nat) (st : BufferState),
      advanceIter SB (n + 1) st = advanceLine SB (advanceIter SB n st)
  | 0, st => rfl
  | n + 1, st => by
      show advanceIter SB (n + 1) (advanceLine SB st) = _
      rw [advanceIter_succ_last SB n (advanceLine SB st)]
      rfl

/-- A run of characters that stays strictly inside the line only moves the
cursor column. -/
theorem writeTextRun_no_wrap (W SB : Nat) :
    ∀ (n : Nat) (st : BufferState), st.x + n < W →
      writeTextRun W SB n st = { st with x := st.x + n }
  | 0, st, h => by simp [writeTextRun]
  | n + 1, st, h => by
      show writeTextRun W SB n (writeChar W SB st) = _
      rw [writeChar, if_neg (by omega : ¬ W ≤ st.x + 1)]
      rw [writeTextRun_no_wrap W SB n { st with x := st.x + 1 }
        (show st.x + 1 + n < W by omega)]
      congr 1
      show st.x + 1 + n = st.x + (n + 1)
      omega

/-- A run of characters ending exactly at the right edge wraps the cursor to
column 0 of the advanced line. -/
theorem writeTextRun_flush (W SB : Nat) :
    ∀ (n : Nat) (st : BufferState), 1 ≤ n → st.x + n = W →
      writeTextRun W SB n st = { advanceLine SB st with x := 0 }
  | 0, _, h1, _ => absurd h1 (by omega)
  | 1, st, _, h2 => by
      show writeChar W SB st = _
      rw [writeChar, if_pos (by omega : W ≤ st.x + 1)]
      rw [advanceLine_withX]
  | n + 2, st, _, h2 => by
      show writeTextRun W SB (n + 1) (writeChar W SB st) = _
      rw [writeChar, if_neg (by omega : ¬ W ≤ st.x + 1)]
      rw [writeTextRun_flush W SB (n + 1) { st with x := st.x + 1 }
        (by omega) (show st.x + 1 + (n + 1) = W by omega)]
      rw [advanceLine_withX]

/-- The cursor/scroll effect of the placement row loop: one line advance per
row except after the last. -/
theorem placeRows_snd (tp : TermParams) (offset cols fg : Nat) :
    ∀ (r rowIdx : Nat) (st : BufferState),
      (placeRows tp offset cols fg r rowIdx st).2
        = advanceIter tp.scrollBottom (r - 1) st
  | 0, _, st => rfl
  | 1, _, st => rfl
  | n + 2, rowIdx, st => by
      show (placeRows tp offset cols fg (n + 1) (rowIdx + 1)
        (advanceLine tp.scrollBottom st)).2 = _
      rw [placeRows_snd tp offset cols fg (n + 1) (rowIdx + 1)
        (advanceLine tp.scrollBottom st)]
      rfl

/-- Cursor effect of the reference text writer when each row fits strictly
inside the line. -/
theorem writeTextBlock_no_wrap (W SB col0 c : Nat) (hc : 1 ≤ c)
    (hlt : col0 + c < W) :
    ∀ (r : Nat) (st : BufferState), 1 ≤ r →
      writeTextBlock W SB col0 c r st
        = { advanceIter SB (r - 1) st with x := col0 + c }
  | 0, _, h => absurd h (by omega)
  | 1, st, _ => by
      show writeTextRun W SB c { st with x := col0 } = _
      rw [writeTextRun_no_wrap W SB c { st with x := col0 } (by simpa using hlt)]
      rfl
  | r + 2, st, _ => by
      have h1 : writeTextRun W SB c { st with x := col0 }
          = { st with x := col0 + c } := by
        rw [writeTextRun_no_wrap W SB c { st with x := col0 } (by simpa using hlt)]
      show writeTextBlock W SB col0 c (r + 1)
          (if (writeTextRun W SB c { st with x := col0 }).x = 0 then
            writeTextRun W SB c { st with x := col0 }
          else advanceLine SB (writeTextRun W SB c { st with x := col0 })) = _
      rw [h1, if_neg (show ¬ ({ st with x := col0 + c } : BufferState).x = 0 by
        show ¬ col0 + c = 0
        omega)]
      rw [advanceLine_withX]
      rw [writeTextBlock_no_wrap W SB col0 c hc hlt (r + 1)
        { advanceLine SB st with x := col0 + c } (by omega)]
      rw [advanceIter_withX]
      rfl

/-- Cursor effect of the reference text writer when each row ends exactly at
the right edge: the wrap itself is the row advance. -/
theorem writeTextBlock_flush (W SB col0 c : Nat) (hc : 1 ≤ c)
    (heq : col0 + c = W) :
    ∀ (r : Nat) (st : BufferState), 1 ≤ r →
      writeTextBlock W SB col0 c r st = { advanceIter SB r st with x := 0 }
  | 0, _, h => absurd h (by omega)
  | 1, st, _ => by
      show writeTextRun W SB c { st with x := col0 } = _
      rw [writeTextRun_flush W SB c { st with x := col0 } hc (by simpa using heq)]
      rw [advanceLine_withX]
      rfl
  | r + 2, st, _ => by
      have h1 : writeTextRun W SB c { st with x := col0 }
          = { advanceLine SB st with x := 0 } := by
        rw [writeTextRun_flush W SB c { st with x := col0 } hc (by simpa using heq)]
        rw [advanceLine_withX]
      show writeTextBlock W SB col0 c (r + 1)
          (if (writeTextRun W SB c { st with x := col0 }).x = 0 then
            writeTextRun W SB c { st with x := col0 }
          else advanceLine SB (writeTextRun W SB c { st with x := col0 })) = _
      rw [h1, if_pos rfl]
      rw [writeTextBlock_flush W SB col0 c hc heq (r + 1)
        { advanceLine SB st with x := 0 } (by omega)]
      rw [advanceIter_withX]
      rfl

/-- A successful `_rescale` preserves the number of stored images. -/
theorem rescaleImageStorage_ok_length (cs : CellSize) (i : Nat)
    (s : ImageStorage) (r : ImageStorage × Bool)
    (h : rescaleImageStorage cs i s = .ok r) :
    r.1.images.length = s.images.length := by
  unfold rescaleImageStorage at h
  split at h
  · exact absurd h (by simp)
  · simp only [Except.ok.injEq] at h
    rw [← h]
    simp

/-- A successful `_drawToCanvas` preserves the number of stored images. -/
theorem drawToCanvas_ok_length (cs : CellSize) (imgId tileId col row : Nat)
    (s : ImageStorage) (r : Blit × ImageStorage)
    (h : drawToCanvas cs imgId tileId col row s = .ok r) :
    r.2.images.length = s.images.length := by
  unfold drawToCanvas at h
  split at h
  · exact absurd h (by simp)
  · next r1 heq =>
      split at h
      · exact absurd h (by simp)
      · simp only [Except.ok.injEq] at h
        rw [← h]
        exact rescaleImageStorage_ok_length cs imgId s r1 heq

/-- `_drawToCanvas` on an id present in the repository succeeds and returns
the rescaled repository. -/
theorem drawToCanvas_ok (cs : CellSize) (imgId tileId col row : Nat)
    (s : ImageStorage) (hlt : imgId < s.images.length) :
    ∃ blit s1, drawToCanvas cs imgId tileId col row s = .ok (blit, s1)
      ∧ s1.images.length = s.images.length := by
  obtain ⟨sp, hg⟩ : ∃ sp, s.images.get? imgId = some sp := by
    cases hq : s.images.get? imgId with
    | none => exact absurd (List.get?_eq_none.mp hq) (by omega)
    | some sp => exact ⟨sp, rfl⟩
  have hres : rescaleImageStorage cs imgId s
      = .ok (⟨s.images.set imgId (rescaleSpec cs s.nextSid sp).1,
             (rescaleSpec cs s.nextSid sp).2.1⟩,
             (rescaleSpec cs s.nextSid sp).2.2) := by
    unfold rescaleImageStorage
    rw [hg]
  have hget2 : (s.images.set imgId (rescaleSpec cs s.nextSid sp).1).get? imgId
      = some (rescaleSpec cs s.nextSid sp).1 :=
    List.get?_set_eq_of_lt _ hlt
  refine ⟨{ imgId := imgId,
            srcX := (tileId % ceilDiv (rescaleSpec cs s.nextSid sp).1.actual.width cs.width)
              * cs.width,
            srcY := (tileId / ceilDiv (rescaleSpec cs s.nextSid sp).1.actual.width cs.width)
              * cs.height,
            srcW := cs.width, srcH := cs.height,
            dstX := col * cs.width, dstY := row * cs.height },
          ⟨s.images.set imgId (rescaleSpec cs s.nextSid sp).1,
           (rescaleSpec cs s.nextSid sp).2.1⟩, ?_, by simp⟩
  unfold drawToCanvas
  rw [hres]
  simp only [hget2]

/-- Marker-shape decomposition of `cellIsMarker`. -/
theorem cellIsMarker_true (cell : Cell) (h : cellIsMarker cell = true) :
    cell.code = CODE ∧ cell.fg &&& INVISIBLE ≠ 0 := by
  unfold cellIsMarker at h
  simp only [Bool.and_eq_true, beq_iff_eq, bne_iff_ne, ne_eq] at h
  exact h

/-- A cell that is not a placeholder marker is skipped by the scan. -/
theorem processCell_skip (cs : CellSize) (rowIdx colIdx : Nat) (cell : Cell)
    (acc : List Blit × ImageStorage) (h : cellIsMarker cell = false) :
    processCell cs rowIdx colIdx cell acc = .ok acc := by
  unfold processCell
  unfold cellIsMarker at h
  by_cases h1 : cell.code = CODE
  · rw [if_pos h1]
    have h2 : cell.fg &&& INVISIBLE = 0 := by
      simp only [h1, beq_self_eq_true, Bool.true_and, bne_eq_false_iff_eq] at h
      exact h
    rw [if_neg (fun hn => hn h2)]
  · rw [if_neg h1]

/-- A marker cell whose id is present paints one tile and keeps the
repository size. -/
theorem processCell_marker_ok (cs : CellSize) (rowIdx colIdx : Nat)
    (cell : Cell) (bs : List Blit) (s : ImageStorage)
    (h : cellIsMarker cell = true)
    (hv : decodeMarkerId cell.fg < s.images.length) :
    ∃ blit s1, processCell cs rowIdx colIdx cell (bs, s) = .ok (bs ++ [blit], s1)
      ∧ s1.images.length = s.images.length := by
  obtain ⟨h1, h2⟩ := cellIsMarker_true cell h
  obtain ⟨blit, s1, hdc, hlen⟩ :=
    drawToCanvas_ok cs (decodeMarkerId cell.fg) (decodeMarkerTile cell.bg)
      colIdx rowIdx s hv
  refine ⟨blit, s1, ?_, hlen⟩
  unfold processCell
  rw [if_pos h1, if_pos h2, hdc]

/-- A marker cell whose id refers to no stored image raises the TypeError. -/
theorem processCell_marker_err (cs : CellSize) (rowIdx colIdx : Nat)
    (cell : Cell) (acc : List Blit × ImageStorage)
    (h : cellIsMarker cell = true)
    (hv : acc.2.images.length ≤ decodeMarkerId cell.fg) :
    processCell cs rowIdx colIdx cell acc = .error "TypeError" := by
  obtain ⟨h1, h2⟩ := cellIsMarker_true cell h
  have hg : acc.2.images.get? (decodeMarkerId cell.fg) = none :=
    List.get?_eq_none.mpr hv
  have hres : rescaleImageStorage cs (decodeMarkerId cell.fg) acc.2
      = .error "TypeError" := by
    unfold rescaleImageStorage
    rw [hg]
  have hdc : drawToCanvas cs (decodeMarkerId cell.fg) (decodeMarkerTile cell.bg)
      colIdx rowIdx acc.2 = .error "TypeError" := by
    unfold drawToCanvas
    rw [hres]
  unfold processCell
  rw [if_pos h1, if_pos h2, hdc]

/-- A successful `processCell` step preserves the repository size. -/
theorem processCell_ok_length (cs : CellSize) (rowIdx colIdx : Nat)
    (cell : Cell) (acc res : List Blit × ImageStorage)
    (h : processCell cs rowIdx colIdx cell acc = .ok res) :
    res.2.images.length = acc.2.images.length := by
  unfold processCell at h
  by_cases h1 : cell.code = CODE
  · rw [if_pos h1] at h
    by_cases h2 : cell.fg &&& INVISIBLE ≠ 0
    · rw [if_pos h2] at h
      split at h
      · next r hdc =>
          simp only [Except.ok.injEq] at h
          rw [← h]
          exact drawToCanvas_ok_length cs _ _ colIdx rowIdx acc.2 r hdc
      · exact absurd h (by simp)
    · rw [if_neg h2] at h
      simp only [Except.ok.injEq] at h
      rw [← h]
  · rw [if_neg h1] at h
    simp only [Except.ok.injEq] at h
    rw [← h]

/-- A successful column scan preserves the repository size. -/
theorem processCells_ok_length (cs : CellSize) (rowIdx : Nat) :
    ∀ (l : List Cell) (colIdx : Nat) (acc res : List Blit × ImageStorage),
      processCells cs rowIdx colIdx l acc = .ok res →
      res.2.images.length = acc.2.images.length
  | [], _, acc, res, h => by
      simp only [processCells, Except.ok.injEq] at h
      rw [← h]
  | cell :: rest, colIdx, acc, res, h => by
      unfold processCells at h
      split at h
      · next acc1 hpc =>
          rw [processCells_ok_length cs rowIdx rest (colIdx + 1) acc1 res h]
          exact processCell_ok_length cs rowIdx colIdx cell acc acc1 hpc
      · exact absurd h (by simp)

/-- The column scan over cells whose markers all decode to present ids
succeeds, paints one tile per marker, and preserves the repository size. -/
theorem processCells_ok (cs : CellSize) (rowIdx : Nat) :
    ∀ (l : List Cell) (colIdx : Nat) (bs : List Blit) (s : ImageStorage),
      (∀ cell ∈ l, cellIsMarker cell = true →
        decodeMarkerId cell.fg < s.images.length) →
      ∃ bs2 s2, processCells cs rowIdx colIdx l (bs, s) = .ok (bs2, s2)
        ∧ bs2.length = bs.length + (l.filter cellIsMarker).length
        ∧ s2.images.length = s.images.length
  | [], _, bs, s, _ => ⟨bs, s, rfl, by simp, rfl⟩
  | cell :: rest, colIdx, bs, s, hval => by
      by_cases hm : cellIsMarker cell = true
      · obtain ⟨blit, s1, hpc, hlen⟩ := processCell_marker_ok cs rowIdx colIdx cell bs s hm
          (hval cell (by simp) hm)
        obtain ⟨bs2, s2, hrec, hcount, hlen2⟩ :=
          processCells_ok cs rowIdx rest (colIdx + 1) (bs ++ [blit]) s1
            (fun c hc hmc => by rw [hlen]; exact hval c (by simp [hc]) hmc)
        refine ⟨bs2, s2, ?_, ?_, ?_⟩
        · show (match processCell cs rowIdx colIdx cell (bs, s) with
            | .ok acc1 => processCells cs rowIdx (colIdx + 1) rest acc1
            | .error e => .error e) = _
          rw [hpc]
          exact hrec
        · rw [hcount]
          simp [hm]
          omega
        · rw [hlen2, hlen]
      · have hskip := processCell_skip cs rowIdx colIdx cell (bs, s)
          (by simpa using hm)
        obtain ⟨bs2, s2, hrec, hcount, hlen2⟩ :=
          processCells_ok cs rowIdx rest (colIdx + 1) bs s
            (fun c hc hmc => hval c (by simp [hc]) hmc)
        refine ⟨bs2, s2, ?_, ?_, ?_⟩
        · show (match processCell cs rowIdx colIdx cell (bs, s) with
            | .ok acc1 => processCells cs rowIdx (colIdx + 1) rest acc1
            | .error e => .error e) = _
          rw [hskip]
          exact hrec
        · rw [hcount]
          simp [hm]
        · exact hlen2

/-- The column scan fails as soon as some marker decodes to an absent id. -/
theorem processCells_err (cs : CellSize) (rowIdx : Nat) :
    ∀ (l : List Cell) (colIdx : Nat) (bs : List Blit) (s : ImageStorage),
      (∃ cell ∈ l, cellIsMarker cell = true ∧
        s.images.length ≤ decodeMarkerId cell.fg) →
      (processCells cs rowIdx colIdx l (bs, s)).isOk = false
  | [], _, _, _, h => absurd h (by simp)
  | cell :: rest, colIdx, bs, s, h => by
      by_cases hm : cellIsMarker cell = true
      · by_cases hv : decodeMarkerId cell.fg < s.images.length
        · obtain ⟨blit, s1, hpc, hlen⟩ :=
            processCell_marker_ok cs rowIdx colIdx cell bs s hm hv
          have hwit : ∃ c ∈ rest, cellIsMarker c = true ∧
              s1.images.length ≤ decodeMarkerId c.fg := by
            obtain ⟨c, hc, hmc, hgc⟩ := h
            rcases List.mem_cons.mp hc with hcc | hcr
            · subst hcc; omega
            · exact ⟨c, hcr, hmc, by rw [hlen]; exact hgc⟩
          show (match processCell cs rowIdx colIdx cell (bs, s) with
            | .ok acc1 => processCells cs rowIdx (colIdx + 1) rest acc1
            | .error e => .error e).isOk = false
          rw [hpc]
          exact processCells_err cs rowIdx rest (colIdx + 1) (bs ++ [blit]) s1 hwit
        · have herr := processCell_marker_err cs rowIdx colIdx cell (bs, s) hm
            (show s.images.length ≤ decodeMarkerId cell.fg by omega)
          show (match processCell cs rowIdx colIdx cell (bs, s) with
            | .ok acc1 => processCells cs rowIdx (colIdx + 1) rest acc1
            | .error e => .error e).isOk = false
          rw [herr]
          rfl
      · have hskip := processCell_skip cs rowIdx colIdx cell (bs, s)
          (by simpa using hm)
        have hwit : ∃ c ∈ rest, cellIsMarker c = true ∧
            s.images.length ≤ decodeMarkerId c.fg := by
          obtain ⟨c, hc, hmc, hgc⟩ := h
          rcases List.mem_cons.mp hc with hcc | hcr
          · subst hcc; exact absurd hmc hm
          · exact ⟨c, hcr, hmc, hgc⟩
        show (match processCell cs rowIdx colIdx cell (bs, s) with
          | .ok acc1 => processCells cs rowIdx (colIdx + 1) rest acc1
          | .error e => .error e).isOk = false
        rw [hskip]
        exact processCells_err cs rowIdx rest (colIdx + 1) bs s hwit

/-- The row walk over a viewport whose markers all decode to present ids
succeeds, paints one tile per marker, and preserves the repository size. -/
theorem renderRows_ok (cs : CellSize) (termCols : Nat) :
    ∀ (g : List (List Cell)) (rowIdx : Nat) (bs : List Blit) (s : ImageStorage),
      (∀ row ∈ g, ∀ cell ∈ row.take termCols, cellIsMarker cell = true →
        decodeMarkerId cell.fg < s.images.length) →
      ∃ bs2 s2, renderRows cs termCols rowIdx g (bs, s) = .ok (bs2, s2)
        ∧ bs2.length = bs.length + countMarkers termCols g
        ∧ s2.images.length = s.images.length
  | [], _, bs, s, _ => ⟨bs, s, rfl, by simp [countMarkers], rfl⟩
  | row :: rest, rowIdx, bs, s, hval => by
      obtain ⟨bs1, s1, hrow, hcount1, hlen1⟩ :=
        processCells_ok cs rowIdx (row.take termCols) 0 bs s
          (fun c hc hmc => hval row (by simp) c hc hmc)
      obtain ⟨bs2, s2, hrec, hcount2, hlen2⟩ :=
        renderRows_ok cs termCols rest (rowIdx + 1) bs1 s1
          (fun r hr c hc hmc => by rw [hlen1]; exact hval r (by simp [hr]) c hc hmc)
      refine ⟨bs2, s2, ?_, ?_, ?_⟩
      · show (match processRow cs termCols rowIdx row (bs, s) with
          | .ok acc1 => renderRows cs termCols (rowIdx + 1) rest acc1
          | .error e => .error e) = _
        rw [show processRow cs termCols rowIdx row (bs, s) = .ok (bs1, s1) from hrow]
        exact hrec
      · rw [hcount2, hcount1]
        simp [countMarkers]
        omega
      · rw [hlen2, hlen1]

/-- The row walk fails as soon as some viewport marker decodes to an absent
id. -/
theorem renderRows_err (cs : CellSize) (termCols : Nat) :
    ∀ (g : List (List Cell)) (rowIdx : Nat) (bs : List Blit) (s : ImageStorage),
      (∃ row ∈ g, ∃ cell ∈ row.take termCols, cellIsMarker cell = true ∧
        s.images.length ≤ decodeMarkerId cell.fg) →
      (renderRows cs termCols rowIdx g (bs, s)).isOk = false
  | [], _, _, _, h => absurd h (by simp)
  | row :: rest, rowIdx, bs, s, h => by
      by_cases hrow : ∃ cell ∈ row.take termCols, cellIsMarker cell = true ∧
          s.images.length ≤ decodeMarkerId cell.fg
      · have herr := processCells_err cs rowIdx (row.take termCols) 0 bs s hrow
        show (match processRow cs termCols rowIdx row (bs, s) with
          | .ok acc1 => renderRows cs termCols (rowIdx + 1) rest acc1
          | .error e => .error e).isOk = false
        cases hq : processRow cs termCols rowIdx row (bs, s) with
        | ok acc1 =>
            rw [show processCells cs rowIdx 0 (row.take termCols) (bs, s)
              = .ok acc1 from hq] at herr
            exact absurd herr (by simp [Except.isOk, Except.toBool])
        | error e => rfl
      · have hwit : ∃ r ∈ rest, ∃ cell ∈ r.take termCols,
            cellIsMarker cell = true ∧
            s.images.length ≤ decodeMarkerId cell.fg := by
          obtain ⟨r, hr, c, hc, hmc, hgc⟩ := h
          rcases List.mem_cons.mp hr with hrr | hrr
          · exact absurd ⟨c, by rw [← hrr]; exact hc, hmc, hgc⟩ hrow
          · exact ⟨r, hrr, c, hc, hmc, hgc⟩
        show (match processRow cs termCols rowIdx row (bs, s) with
          | .ok acc1 => renderRows cs termCols (rowIdx + 1) rest acc1
          | .error e => .error e).isOk = false
        cases hq : processRow cs termCols rowIdx row (bs, s) with
        | ok acc1 =>
            have hlen : acc1.2.images.length = s.images.length :=
              processCells_ok_length cs rowIdx (row.take termCols) 0 (bs, s) acc1 hq
            obtain ⟨r, hr, c, hc, hmc, hgc⟩ := hwit
            exact renderRows_err cs termCols rest (rowIdx + 1) acc1.1 acc1.2
              ⟨r, hr, c, hc, hmc, by rw [hlen]; exact hgc⟩
        | error e => rfl

/-- The boolean viewport validity check unpacked. -/
theorem gridMarkersValid_iff (termCols : Nat) (grid : List (List Cell))
    (len : Nat) :
    gridMarkersValid termCols grid len = true
      ↔ ∀ row ∈ grid, ∀ cell ∈ row.take termCols,
          cellIsMarker cell = true → decodeMarkerId cell.fg < len := by
  unfold gridMarkersValid
  rw [List.all_eq_true]
  constructor
  · intro h row hrow cell hcell hm
    have h2 := List.all_eq_true.mp (h row hrow) cell hcell
    rw [hm] at h2
    simpa using h2
  · intro h row hrow
    rw [List.all_eq_true]
    intro cell hcell
    by_cases hm : cellIsMarker cell = true
    · simpa [hm] using h row hrow cell hcell hm
    · have hf : cellIsMarker cell = false := by simpa using hm
      simp [hf]

/-! ### Claim theorems -/

/-- Claim C6: rescale idempotence — calling `_rescale` a second time with
unchanged current cell metrics is a no-op (the work flag of the second call
is `false` and the repository is returned unchanged), because the first call
left `actualCellSize` equal to the current metrics. -/
theorem rescale_idempotent (cs : CellSize) (i : Nat) (s s1 : ImageStorage)
    (b : Bool) (h : rescaleImageStorage cs i s = .ok (s1, b)) :
    rescaleImageStorage cs i s1 = .ok (s1, false) := by
  unfold rescaleImageStorage at h ⊢
  split at h
  · exact absurd h (by simp)
  · next sp hg =>
      simp only [Except.ok.injEq, Prod.mk.injEq] at h
      obtain ⟨hs1, -⟩ := h
      obtain ⟨hlt, -⟩ := List.get?_eq_some.mp hg
      subst hs1
      have hget : (s.images.set i (rescaleSpec cs s.nextSid sp).1).get? i
          = some (rescaleSpec cs s.nextSid sp).1 :=
        List.get?_set_eq_of_lt _ (by simpa using hlt)
      simp only [hget, rescaleSpec_noop cs _ _ (rescaleSpec_actualCellSize cs s.nextSid sp),
        List.set_set]

/-- Concrete repository used by the idempotence witness: one 3×3 image
created at cell metrics 1×1. -/
def rescaleW0 : ImageStorage :=
  ⟨[⟨⟨0, 3, 3⟩, ⟨1, 1⟩, ⟨0, 3, 3⟩, ⟨1, 1⟩, []⟩], 50⟩

/-- The repository after rescaling `rescaleW0` to cell metrics 2×2 (the
resample path: a fresh 6×6 surface). -/
def rescaleW1 : ImageStorage :=
  ⟨[⟨⟨0, 3, 3⟩, ⟨1, 1⟩, ⟨50, 6, 6⟩, ⟨2, 2⟩, []⟩], 51⟩

/-- Witness for C6 at a concrete repository: the first rescale to 2×2 does
work, the second is the no-op. -/
theorem rescale_idempotent_witness :
    rescaleImageStorage ⟨2, 2⟩ 0 rescaleW1 = .ok (rescaleW1, false) :=
  rescale_idempotent ⟨2, 2⟩ 0 rescaleW0 rescaleW1 true (by decide)

/-- Claim C4 (divergence evidence): with the background-handling parameter
equal to `1` a pixel never explicitly coloured by the stream comes out
transparent (packed 0), but with the parameter `0`, `2`, or absent it comes
out as the hard-coded opaque black `toRGBA8888(0, 0, 0, 255)` — a non-zero
constant that is produced without ever consulting the terminal's background
colour (the decode path has no background input at all). -/
theorem background_fill_black :
    sixelPipeline [0, 0] 4 4 [] 0 0 = toRGBA8888 0 0 0 255 ∧
    sixelPipeline [0, 2] 4 4 [] 0 0 = toRGBA8888 0 0 0 255 ∧
    sixelPipeline [0] 4 4 [] 0 0 = toRGBA8888 0 0 0 255 ∧
    sixelPipeline [0, 1] 4 4 [] 0 0 = 0 ∧
    toRGBA8888 0 0 0 255 ≠ 0 := by
  refine ⟨by decide, by decide, by decide, by decide, by decide⟩

/-- Claim C9 (counterexample): on a fresh host, after `activate` followed by
`dispose`, the SIXEL DCS handler and the `onRender` subscription registered
by `activate` are still registered — `dispose` does not unregister every
subscription and handler. -/
theorem dispose_counterexample :
    (dispose (activate initialAddon ⟨none, [], [], 0⟩).1
        (activate initialAddon ⟨none, [], [], 0⟩).2).2.dcsQ = some 0 ∧
    (dispose (activate initialAddon ⟨none, [], [], 0⟩).1
        (activate initialAddon ⟨none, [], [], 0⟩).2).2.renderSubs = [2] := by
  exact ⟨by decide, by decide⟩

/-- Claim C9 (amended): `dispose` unregisters exactly the OSC 1337 image
handler registered by `activate`, leaving the DCS handler slot and the
`onRender` subscription in place; it is idempotent, and calling it on a
fresh addon without a prior `activate` changes nothing. -/
theorem dispose_amended (h0 : Host) (hfr : h0.nextHandle + 1 ∉ h0.osc1337) :
    (dispose (activate initialAddon h0).1 (activate initialAddon h0).2).2.osc1337
        = h0.osc1337 ∧
    (dispose (activate initialAddon h0).1 (activate initialAddon h0).2).2.dcsQ
        = (activate initialAddon h0).2.dcsQ ∧
    (dispose (activate initialAddon h0).1 (activate initialAddon h0).2).2.renderSubs
        = (activate initialAddon h0).2.renderSubs ∧
    dispose (dispose (activate initialAddon h0).1 (activate initialAddon h0).2).1
        (dispose (activate initialAddon h0).1 (activate initialAddon h0).2).2
      = dispose (activate initialAddon h0).1 (activate initialAddon h0).2 ∧
    dispose initialAddon h0 = (initialAddon, h0) := by
  refine ⟨?_, rfl, rfl, rfl, rfl⟩
  simp only [activate, dispose, initialAddon]
  rw [List.erase_append_right _ (by simpa using hfr)]
  simp

/-- Witness for C9's amended theorem on a concrete fresh host. -/
theorem dispose_amended_witness :
    (dispose (activate initialAddon ⟨none, [7], [], 3⟩).1
        (activate initialAddon ⟨none, [7], [], 3⟩).2).2.osc1337 = [7] ∧
    dispose initialAddon ⟨none, [7], [], 3⟩ = (initialAddon, ⟨none, [7], [], 3⟩) := by
  have h := dispose_amended ⟨none, [7], [], 3⟩ (by decide)
  exact ⟨h.1, h.2.2.2.2⟩

/-- Claim C10: marker encoding round-trip — for image ids and tile indices
below 2^24 the `(INVISIBLE | id, tileIndex)` attributes written by
`addImage` decode back through the render-time masks to exactly `(id,
tileIndex)` with the INVISIBLE flag detected, while any id of 2^24 or more
fails to round-trip through the 24-bit colour field. -/
theorem marker_roundtrip (id t : Nat) (hid : id < 2 ^ 24) (ht : t < 2 ^ 24) :
    decodeMarkerId (encodeMarkerFg id) = id ∧
    decodeMarkerTile t = t ∧
    encodeMarkerFg id &&& INVISIBLE ≠ 0 ∧
    ∀ j, 2 ^ 24 ≤ j → decodeMarkerId (encodeMarkerFg j) ≠ j := by
  have hinv : INVISIBLE = 2 ^ 30 := by norm_num [INVISIBLE]
  have hmask : (0xFFFFFF : Nat) = 2 ^ 24 - 1 := by norm_num
  refine ⟨?_, ?_, ?_, ?_⟩
  · unfold decodeMarkerId encodeMarkerFg
    rw [hinv, hmask]
    apply Nat.eq_of_testBit_eq
    intro i
    simp only [Nat.testBit_land, Nat.testBit_lor, Nat.testBit_two_pow,
      Nat.testBit_two_pow_sub_one]
    by_cases hi : i < 24
    · have : ¬ (30 = i) := by omega
      simp [hi, this]
    · have hfalse : id.testBit i = false :=
        Nat.testBit_lt_two_pow (lt_of_lt_of_le hid (Nat.pow_le_pow_right (by norm_num) (by omega)))
      simp [hi, hfalse]
  · unfold decodeMarkerTile
    rw [hmask]
    apply Nat.eq_of_testBit_eq
    intro i
    simp only [Nat.testBit_land, Nat.testBit_two_pow_sub_one]
    by_cases hi : i < 24
    · simp [hi]
    · have hfalse : t.testBit i = false :=
        Nat.testBit_lt_two_pow (lt_of_lt_of_le ht (Nat.pow_le_pow_right (by norm_num) (by omega)))
      simp [hi, hfalse]
  · intro h
    have hbit : Nat.testBit INVISIBLE 30 = true := by decide
    have h30 : (encodeMarkerFg id &&& INVISIBLE).testBit 30 = true := by
      unfold encodeMarkerFg
      simp [Nat.testBit_land, Nat.testBit_lor, hbit]
    rw [h] at h30
    simp [Nat.zero_testBit] at h30
  · intro j hj
    have hle : decodeMarkerId (encodeMarkerFg j) ≤ 0xFFFFFF := Nat.and_le_right
    intro he
    rw [he] at hle
    omega

/-- Witness for C10 at concrete values, including the non-representable id
2^24 for the failure clause. -/
theorem marker_roundtrip_witness :
    decodeMarkerId (encodeMarkerFg 5) = 5 ∧
    decodeMarkerTile 7 = 7 ∧
    encodeMarkerFg 5 &&& INVISIBLE ≠ 0 ∧
    decodeMarkerId (encodeMarkerFg (2 ^ 24)) ≠ 2 ^ 24 := by
  have h := marker_roundtrip 5 7 (by norm_num) (by norm_num)
  exact ⟨h.1, h.2.1, h.2.2.1, h.2.2.2 (2 ^ 24) le_rfl⟩

/-- Claim C8: width-overflow truncation — `addImage` writes exactly one
marker per image row for each tile column `col` with
`cursorX + col < termCols`, in place on the starting column; tile columns
that would exceed the grid width are skipped on every row and never wrapped
into a following row, and the routine remains total (no error). -/
theorem width_overflow_truncation (tp : TermParams) (cs : CellSize)
    (img : Surface) (store : ImageStorage) (st : BufferState) :
    (addImage tp cs img store st).2.2.2
      = (List.range (ceilDiv img.height cs.height)).flatMap (fun rowIdx =>
          (List.range (min (ceilDiv img.width cs.width) (tp.cols - st.x))).map
            (fun col =>
              { rowIdx := rowIdx, col := st.x + col, code := CODE, cellWidth := 1,
                fg := encodeMarkerFg store.images.length,
                bg := rowIdx * ceilDiv img.width cs.width + col })) :=
  addImage_markers tp cs img store st

/-- Claim C2 (counterexample): on a 2-column grid an image needing 3 tile
columns loses its third column, so the tile indices written are not
`{0, .., c*r - 1}` — index 2 is never written. -/
theorem tile_indices_counterexample :
    ((addImage ⟨2, 10⟩ ⟨1, 1⟩ ⟨0, 3, 1⟩ ⟨[], 0⟩ ⟨0, 0, 0⟩).2.2.2).map
        (fun m => m.bg)
      ≠ List.range (ceilDiv 3 1 * ceilDiv 1 1) := by
  decide

/-- Claim C2 (amended): when the tile rectangle fits in the grid width from
the starting column (`cursorX + tileColumns ≤ termCols`), the tile indices
written by `addImage` are exactly `0, .., c*r - 1`, each exactly once, in
row-major write order. -/
theorem tile_indices_row_major (tp : TermParams) (cs : CellSize)
    (img : Surface) (store : ImageStorage) (st : BufferState)
    (hfit : st.x + ceilDiv img.width cs.width ≤ tp.cols) :
    ((addImage tp cs img store st).2.2.2).map (fun m => m.bg)
      = List.range (ceilDiv img.width cs.width * ceilDiv img.height cs.height) := by
  rw [addImage_markers]
  have hmin : min (ceilDiv img.width cs.width) (tp.cols - st.x)
      = ceilDiv img.width cs.width := by omega
  rw [hmin, List.map_flatMap]
  rw [Nat.mul_comm]
  rw [← range_mul_flatMap (ceilDiv img.height cs.height) (ceilDiv img.width cs.width)]
  apply congrArg
  funext j
  rw [List.map_map]
  rfl

/-- Witness for C2's amended theorem: a 3×2-tile image placed at column 4 of
a 10-column grid writes tile indices `[0, 1, 2, 3, 4, 5]`. -/
theorem tile_indices_row_major_witness :
    ((addImage ⟨10, 100⟩ ⟨1, 1⟩ ⟨0, 3, 2⟩ ⟨[], 0⟩ ⟨4, 0, 0⟩).2.2.2).map
        (fun m => m.bg)
      = List.range (ceilDiv 3 1 * ceilDiv 2 1) :=
  tile_indices_row_major ⟨10, 100⟩ ⟨1, 1⟩ ⟨0, 3, 2⟩ ⟨[], 0⟩ ⟨4, 0, 0⟩ (by decide)

/-- Claim C1 (counterexample): an image 8 tile columns wide placed at cursor
column 5 of a 10-column grid does not leave the cursor where writing 8
printable characters per row would — placement truncates the overflowing
columns and homes the cursor to column 0, while text writing wraps onto the
next line and continues to column 3. -/
theorem cursor_equiv_counterexample :
    (addImage ⟨10, 100⟩ ⟨1, 1⟩ ⟨0, 8, 1⟩ ⟨[], 0⟩ ⟨5, 0, 0⟩).2.2.1
      ≠ writeTextBlock 10 100 5 (ceilDiv 8 1) (ceilDiv 1 1) ⟨5, 0, 0⟩ := by
  decide

/-- Claim C1 (amended): when the image's tile columns fit within the grid
width from the starting column (`col0 + c ≤ W`, flush against the right edge
allowed), placing the image via `addImage` leaves the cursor position and
the scroll-operation count exactly equal to those of writing `c` printable
narrow characters per row for `r` rows from the same start, with no
scroll-region restriction on `scrollBottom`. -/
theorem cursor_equiv_fit (tp : TermParams) (cs : CellSize) (img : Surface)
    (store : ImageStorage) (st : BufferState)
    (hc : 1 ≤ ceilDiv img.width cs.width)
    (hr : 1 ≤ ceilDiv img.height cs.height)
    (hfit : st.x + ceilDiv img.width cs.width ≤ tp.cols) :
    (addImage tp cs img store st).2.2.1
      = writeTextBlock tp.cols tp.scrollBottom st.x (ceilDiv img.width cs.width)
          (ceilDiv img.height cs.height) st := by
  simp only [addImage, addImageStore]
  rw [placeRows_snd]
  by_cases hover : tp.cols ≤ st.x + ceilDiv img.width cs.width
  · rw [if_pos hover]
    have heq : st.x + ceilDiv img.width cs.width = tp.cols :=
      Nat.le_antisymm hfit hover
    rw [writeTextBlock_flush tp.cols tp.scrollBottom st.x
      (ceilDiv img.width cs.width) hc heq (ceilDiv img.height cs.height) st hr]
    have hit : advanceIter tp.scrollBottom (ceilDiv img.height cs.height) st
        = advanceLine tp.scrollBottom
            (advanceIter tp.scrollBottom (ceilDiv img.height cs.height - 1) st) := by
      conv_lhs =>
        rw [show ceilDiv img.height cs.height
          = (ceilDiv img.height cs.height - 1) + 1 from by omega]
      rw [advanceIter_succ_last]
    rw [hit]
  · rw [if_neg hover]
    have hlt : st.x + ceilDiv img.width cs.width < tp.cols := by omega
    rw [writeTextBlock_no_wrap tp.cols tp.scrollBottom st.x
      (ceilDiv img.width cs.width) hc hlt (ceilDiv img.height cs.height) st hr]

/-- Witness for C1's amended theorem: a 5×4-tile image placed flush to the
right edge from column 5 of a 10-column grid with scroll bottom 2 below the
cursor — placement and text writing agree on cursor and scroll count. -/
theorem cursor_equiv_fit_witness :
    (addImage ⟨10, 3⟩ ⟨1, 1⟩ ⟨0, 5, 4⟩ ⟨[], 0⟩ ⟨5, 2, 0⟩).2.2.1
      = writeTextBlock 10 3 5 (ceilDiv 5 1) (ceilDiv 4 1) ⟨5, 2, 0⟩ :=
  cursor_equiv_fit ⟨10, 3⟩ ⟨1, 1⟩ ⟨0, 5, 4⟩ ⟨[], 0⟩ ⟨5, 2, 0⟩
    (by decide) (by decide) (by decide)

/-- Claim C3 (counterexample): a marker whose id (7) was never created is
not skipped — `render` raises the TypeError from the out-of-range repository
access, and the valid marker (id 0) following it in the same pass is never
painted. -/
theorem stale_marker_counterexample :
    renderCells ⟨2, 2⟩ 2
        [[⟨CODE, INVISIBLE ||| 7, 0⟩, ⟨CODE, INVISIBLE ||| 0, 0⟩]]
        ⟨[⟨⟨0, 4, 4⟩, ⟨2, 2⟩, ⟨0, 4, 4⟩, ⟨2, 2⟩, []⟩], 10⟩
      = .error "TypeError" := by
  decide

/-- Claim C3 (amended): a render pass succeeds exactly when every marker in
the viewport decodes to an image id present in the repository — a tile index
at or beyond the image's geometry does not raise an error and does not
affect the painting of other markers (in a successful pass exactly one tile
is painted per marker, whatever the tile indices) — while a marker whose id
refers to no stored image raises a TypeError that aborts the pass. -/
theorem stale_marker_amended (cs : CellSize) (termCols : Nat)
    (grid : List (List Cell)) (s : ImageStorage) :
    (renderCells cs termCols grid s).isOk
        = gridMarkersValid termCols grid s.images.length
    ∧ (renderCells cs termCols grid s).toOption.map (fun p => p.1.length)
        = (if gridMarkersValid termCols grid s.images.length = true
           then some (countMarkers termCols grid) else none) := by
  by_cases hv : gridMarkersValid termCols grid s.images.length = true
  · obtain ⟨bs2, s2, heq, hcount, -⟩ :=
      renderRows_ok cs termCols grid 0 [] s
        ((gridMarkersValid_iff termCols grid s.images.length).mp hv)
    have hrc : renderCells cs termCols grid s = .ok (bs2, s2) := heq
    constructor
    · rw [hrc, hv]; rfl
    · rw [hrc, if_pos hv]
      simp only [List.length_nil, Nat.zero_add] at hcount
      simp [Except.toOption, hcount]
  · have hv' : gridMarkersValid termCols grid s.images.length = false := by
      simpa using hv
    have hex : ∃ row ∈ grid, ∃ cell ∈ row.take termCols,
        cellIsMarker cell = true ∧
        s.images.length ≤ decodeMarkerId cell.fg := by
      by_contra hc
      apply hv
      rw [gridMarkersValid_iff]
      intro row hr cell hcl hm
      by_contra hlt
      exact hc ⟨row, hr, cell, hcl, hm, by omega⟩
    have hrc : (renderCells cs termCols grid s).isOk = false :=
      renderRows_err cs termCols grid 0 [] s hex
    constructor
    · rw [hrc, hv']
    · rw [if_neg hv]
      cases hq : renderCells cs termCols grid s with
      | ok r =>
          rw [hq] at hrc
          exact absurd hrc (by simp [Except.isOk, Except.toBool])
      | error e => rfl

/-- Repository operations whose sequences the scaling invariant survives:
`create` is the repository-append of `addImage`; `ensureScaled` is
`_rescale` at the current cell metrics (a no-op when the id is absent, where
the source would throw). -/
inductive RepoOp where
  | create (img : Surface) (cs : CellSize)
  | ensureScaled (imgId : Nat) (cs : CellSize)
  deriving DecidableEq

/-- Apply one repository operation. -/
def applyOp : RepoOp → ImageStorage → ImageStorage
  | .create img cs, s => (addImageStore img cs s).2
  | .ensureScaled i cs, s =>
      match rescaleImageStorage cs i s with
      | .ok r => r.1
      | .error _ => s

/-- Apply a sequence of repository operations. -/
def applyOps (ops : List RepoOp) (s : ImageStorage) : ImageStorage :=
  ops.foldl (fun s op => applyOp op s) s

/-- The repository of a fresh `ImageStorage`. -/
def emptyStorage : ImageStorage := ⟨[], 0⟩

/-- The image scaling invariant claimed by the spec: the actual surface's
dimensions are the original's scaled by `actualCellSize / origCellSize`
(with the source's ceiling), and at equal metrics the actual surface is the
very same object as the original. -/
def specInv (sp : IImageSpec) : Prop :=
  sp.actual.width
      = ceilDiv (sp.orig.width * sp.actualCellSize.width) sp.origCellSize.width
  ∧ sp.actual.height
      = ceilDiv (sp.orig.height * sp.actualCellSize.height) sp.origCellSize.height
  ∧ (sp.actualCellSize = sp.origCellSize → sp.actual = sp.orig)

instance (sp : IImageSpec) : Decidable (specInv sp) := by
  unfold specInv
  infer_instance

/-- Cell metrics recorded by a `create` are positive (pixel sizes of a
character cell); `ensureScaled` needs no side condition. -/
def opPos : RepoOp → Bool
  | .create _ cs => decide (1 ≤ cs.width) && decide (1 ≤ cs.height)
  | .ensureScaled _ _ => true

/-- `specInv` strengthened with the positivity of the creation metrics. -/
def goodSpec (sp : IImageSpec) : Prop :=
  specInv sp ∧ 1 ≤ sp.origCellSize.width ∧ 1 ≤ sp.origCellSize.height

/-- `ceil(a * b / b) = a` for positive `b` — creation and the reset path of
`_rescale` satisfy the scaling equation. -/
theorem ceilDiv_mul_self (a b : Nat) (hb : 1 ≤ b) : ceilDiv (a * b) b = a := by
  unfold ceilDiv
  rw [Nat.mul_comm a b]
  rw [show b * a + b - 1 = b * a + (b - 1) from by omega]
  rw [Nat.mul_add_div (by omega)]
  simp [Nat.div_eq_of_lt (show b - 1 < b by omega)]

/-- `_rescale` preserves the strengthened invariant on one record. -/
theorem rescaleSpec_good (cs : CellSize) (n : Nat) (sp : IImageSpec)
    (h : goodSpec sp) : goodSpec (rescaleSpec cs n sp).1 := by
  obtain ⟨hinv, hw, hh⟩ := h
  unfold rescaleSpec
  by_cases e1 : cs = sp.actualCellSize
  · rw [if_pos e1]; exact ⟨hinv, hw, hh⟩
  · rw [if_neg e1]
    by_cases e2 : cs = sp.origCellSize
    · rw [if_pos e2]
      exact ⟨⟨(ceilDiv_mul_self sp.orig.width sp.origCellSize.width hw).symm,
        (ceilDiv_mul_self sp.orig.height sp.origCellSize.height hh).symm,
        fun _ => rfl⟩, hw, hh⟩
    · rw [if_neg e2]
      exact ⟨⟨rfl, rfl, fun hco => absurd hco e2⟩, hw, hh⟩

/-- One repository operation preserves the strengthened invariant on every
stored record. -/
theorem applyOp_good (op : RepoOp) (s : ImageStorage) (hpos : opPos op = true)
    (hs : ∀ sp ∈ s.images, goodSpec sp) :
    ∀ sp ∈ (applyOp op s).images, goodSpec sp := by
  cases op with
  | create img cs =>
      intro sp hsp
      unfold applyOp addImageStore at hsp
      simp only at hsp
      rcases List.mem_append.mp hsp with hold | hnew
      · exact hs sp hold
      · have hcs : 1 ≤ cs.width ∧ 1 ≤ cs.height := by
          unfold opPos at hpos
          simpa using hpos
        have hsp' : sp = (⟨img, cs, img, cs, []⟩ : IImageSpec) := by
          simpa using hnew
        rw [hsp']
        exact ⟨⟨(ceilDiv_mul_self img.width cs.width hcs.1).symm,
          (ceilDiv_mul_self img.height cs.height hcs.2).symm,
          fun _ => rfl⟩, hcs.1, hcs.2⟩
  | ensureScaled i cs =>
      intro sp hsp
      have hsp' : sp ∈ (match rescaleImageStorage cs i s with
          | .ok r => r.1
          | .error _ => s).images := hsp
      cases hres : rescaleImageStorage cs i s with
      | error e =>
          rw [hres] at hsp'
          exact hs sp hsp'
      | ok r =>
          rw [hres] at hsp'
          have hsp2 : sp ∈ r.1.images := hsp'
          unfold rescaleImageStorage at hres
          split at hres
          · exact absurd hres (by simp)
          · next spi hg =>
              simp only [Except.ok.injEq] at hres
              have h1 : r.1.images
                  = s.images.set i (rescaleSpec cs s.nextSid spi).1 := by
                rw [← hres]
              rw [h1] at hsp2
              rcases List.mem_or_eq_of_mem_set hsp2 with hold | hnew
              · exact hs sp hold
              · rw [hnew]
                exact rescaleSpec_good cs s.nextSid spi (hs spi (List.get?_mem hg))

/-- A whole sequence of creations and rescales preserves the strengthened
invariant. -/
theorem applyOps_good :
    ∀ (ops : List RepoOp) (s : ImageStorage),
      (∀ op ∈ ops, opPos op = true) → (∀ sp ∈ s.images, goodSpec sp) →
      ∀ sp ∈ (applyOps ops s).images, goodSpec sp
  | [], s, _, hs => hs
  | op :: rest, s, hpos, hs =>
      applyOps_good rest (applyOp op s)
        (fun o ho => hpos o (by simp [ho]))
        (applyOp_good op s (hpos op (by simp)) hs)

/-- Claim C5 (counterexample): dirty-marking (the asynchronous decode
completion setting `actualCellSize = {0, 0}`) breaks the scaling invariant —
the actual surface keeps its 10×10 dimensions although the zeroed metrics
demand 0×0 — so the invariant does not hold after every sequence of
repository operations that includes dirty-marking. -/
theorem scaling_invariant_counterexample :
    ((markDirty 0 (applyOp (RepoOp.create ⟨0, 10, 10⟩ ⟨8, 16⟩)
        emptyStorage)).images.all (fun sp => decide (specInv sp))) = false := by
  decide

/-- Claim C5 (amended): after any sequence of creations and rescales (with
positive creation cell metrics), every stored image satisfies the scaling
invariant — dimensions scaled by `actualCellSize / origCellSize` with the
source's ceiling on each axis, and the actual surface being the very same
object as the original whenever the metrics are equal.  Dirty-marking
deliberately violates the metrics equation until the next rescale restores
it. -/
theorem scaling_invariant_amended (ops : List RepoOp)
    (hpos : ∀ op ∈ ops, opPos op = true) :
    ∀ sp ∈ (applyOps ops emptyStorage).images, specInv sp :=
  fun sp hsp =>
    (applyOps_good ops emptyStorage hpos (by simp [emptyStorage]) sp hsp).1

/-- Witness for C5's amended theorem: create a 10×10 image at cell metrics
8×16 and rescale it to metrics 4×4 — the resampled 5×3 surface satisfies the
invariant. -/
theorem scaling_invariant_amended_witness :
    specInv ⟨⟨0, 10, 10⟩, ⟨8, 16⟩, ⟨0, 5, 3⟩, ⟨4, 4⟩, []⟩ :=
  scaling_invariant_amended
    [RepoOp.create ⟨0, 10, 10⟩ ⟨8, 16⟩, RepoOp.ensureScaled 0 ⟨4, 4⟩]
    (by decide) ⟨⟨0, 10, 10⟩, ⟨8, 16⟩, ⟨0, 5, 3⟩, ⟨4, 4⟩, []⟩ (by decide)

/-- Claim C7: OSC 1337 unit rejection and acceptance — the handler returns
"not consumed" with the repository and buffer untouched when the data has no
`:` divider, when the parsed `inline` header field is falsy (its default 0
included), or when the sniffed payload is unrecognized or has an
undeterminable (-1) dimension; in every remaining case it stores exactly one
new image and returns true.  The handler is a total function, so no
exception reaches the host. -/
theorem osc_header_payload_rejection (sniff : List Nat → SizeResult)
    (tp : TermParams) (cs : CellSize) (data : List Char)
    (store : ImageStorage) (st : BufferState) :
    (data.findIdx? (fun c => c == ':') = none →
      oscImageHandler sniff tp cs data store st = (false, store, st))
    ∧ (∀ divider, data.findIdx? (fun c => c == ':') = some divider →
        inlineTruthy (headerInline ((data.take divider).drop (oscStart data)))
          = false →
        oscImageHandler sniff tp cs data store st = (false, store, st))
    ∧ (∀ divider, data.findIdx? (fun c => c == ':') = some divider →
        inlineTruthy (headerInline ((data.take divider).drop (oscStart data)))
          = true →
        ((sniff ((data.map (fun c => c.toNat % 256)).drop (divider + 1))).type
            = ImageType.invalid
          ∨ (sniff ((data.map (fun c => c.toNat % 256)).drop (divider + 1))).width = -1
          ∨ (sniff ((data.map (fun c => c.toNat % 256)).drop (divider + 1))).height = -1) →
        oscImageHandler sniff tp cs data store st = (false, store, st))
    ∧ (∀ divider, data.findIdx? (fun c => c == ':') = some divider →
        inlineTruthy (headerInline ((data.take divider).drop (oscStart data)))
          = true →
        ¬ ((sniff ((data.map (fun c => c.toNat % 256)).drop (divider + 1))).type
            = ImageType.invalid
          ∨ (sniff ((data.map (fun c => c.toNat % 256)).drop (divider + 1))).width = -1
          ∨ (sniff ((data.map (fun c => c.toNat % 256)).drop (divider + 1))).height = -1) →
        (oscImageHandler sniff tp cs data store st).1 = true
          ∧ (oscImageHandler sniff tp cs data store st).2.1.images.length
              = store.images.length + 1) := by
  refine ⟨?_, ?_, ?_, ?_⟩
  · intro hdiv
    simp only [oscImageHandler, hdiv]
  · intro divider hdiv hinl
    simp only [oscImageHandler, hdiv]
    rw [if_pos hinl]
  · intro divider hdiv hinl hsz
    simp only [oscImageHandler, hdiv]
    rw [if_neg (by simp [hinl]), if_pos hsz]
  · intro divider hdiv hinl hsz
    simp only [oscImageHandler, hdiv]
    rw [if_neg (by simp [hinl]), if_neg hsz]
    refine ⟨rfl, ?_⟩
    simp [addImageFromBase64Sync, addImage, addImageStore]

/-- A constant sniffer recognizing a 10×10 PNG, standing for
`ImageSize.guessFormat` on a valid payload. -/
def sniffPng : List Nat → SizeResult := fun _ => ⟨ImageType.png, 10, 10⟩

/-- Witness for C7 at concrete inputs: a unit without divider is rejected
with the repository untouched; a recognized inline unit is consumed and
stores one image. -/
theorem osc_header_payload_rejection_witness :
    oscImageHandler sniffPng ⟨10, 100⟩ ⟨1, 1⟩ "File=inline=1 no divider".toList
        ⟨[], 0⟩ ⟨0, 0, 0⟩ = (false, ⟨[], 0⟩, ⟨0, 0, 0⟩)
    ∧ (oscImageHandler sniffPng ⟨10, 100⟩ ⟨1, 1⟩ "File=inline=1:abc".toList
        ⟨[], 0⟩ ⟨0, 0, 0⟩).1 = true
    ∧ (oscImageHandler sniffPng ⟨10, 100⟩ ⟨1, 1⟩ "File=inline=1:abc".toList
        ⟨[], 0⟩ ⟨0, 0, 0⟩).2.1.images.length
        = (⟨[], 0⟩ : ImageStorage).images.length + 1 := by
  have hrej := (osc_header_payload_rejection sniffPng ⟨10, 100⟩ ⟨1, 1⟩
    "File=inline=1 no divider".toList ⟨[], 0⟩ ⟨0, 0, 0⟩).1 (by decide)
  have hacc := (osc_header_payload_rejection sniffPng ⟨10, 100⟩ ⟨1, 1⟩
    "File=inline=1:abc".toList ⟨[], 0⟩ ⟨0, 0, 0⟩).2.2.2 13
    (by decide) (by decide) (by decide)
  exact ⟨hrej, hacc.1, hacc.2⟩

end SixelSpec
